import Mathlib

/-!
# Verification of the XML-to-OData conversion engine

Shallow embedding of `src/lib/data/json.js` from the central-backend
repository: the schema-driven single-pass tree walker that converts one
submission XML document into flat rows for a requested table, together with
its branch locator (`getBranchState`), content-hash identity generator
(`hashId`), navigation link builder (`navigationLink`) and per-type value
coercion (the `ontext` handler).

Modelling conventions:
* JS objects that serve as rows are insertion-ordered association lists
  (`Row`); assignment to an existing key updates it in place, assignment to
  a fresh key appends it, exactly as JS property assignment behaves.
* The output tree is built through aliased references in the source
  (`dataStack` holds pointers into the tree under construction, and `result`
  holds pointers to row objects).  The model makes the aliasing explicit
  with a heap: `St.rows` is the list of allocated row objects and both
  `dataStack` and `result` store indices into it.
* The four traversal stacks are cons lists with the top of the stack at the
  head (JS pushes and reads at the array end); where the source iterates a
  stack from the bottom, the model reverses first.
* JS numbers are modelled as exact decimals (`Dec`, a mantissa with a
  power-of-ten denominator, kept in canonical form) plus an explicit `nan`
  marker; the coercions `parseInt` and `parseFloat` are modelled on decimal
  literals with the JS prefix-parsing semantics (hexadecimal prefixes,
  infinities and binary floating-point rounding are not exercised by any
  claim and are not modelled).
* The streaming XML scanner (htmlparser2, an external dependency) delivers
  open/text/close callbacks; the model takes the delivered event list as
  the input, so a `Submission` carries its `instanceId` and its event
  stream.  The conversion returns `some rows` when the close handler sees
  the field stack empty (the promise resolves) and `none` when the event
  stream ends without that ever happening (the promise never settles; the
  source constructs its promise with a resolver only, no rejecter).
-/

/-- A single quote character, used inside navigation links. -/
def sqc : String := String.singleton (Char.ofNat 39)

/-- Iteration values stored on the iteration stack: the source pushes the
submission instanceId (a string), the empty string for structures, and the
current array length (a number) for repeats. -/
inductive Iter where
  | str (s : String)
  | nat (n : Nat)
deriving DecidableEq

/-- A JS number arising from a decimal literal, represented exactly as
`m / 10 ^ e`.  Values built by the parsers are canonical (`e` is minimal),
so structural equality coincides with numeric equality there. -/
structure Dec where
  m : Int
  e : Nat
deriving DecidableEq

/-- Canonicalize `m / 10 ^ e` by stripping factors of ten (structural fuel
descent on `e`). -/
def normDec (m : Int) : Nat → Dec
  | 0 => ⟨m, 0⟩
  | e + 1 => if m % 10 = 0 then normDec (m / 10) e else ⟨m, e + 1⟩

/-- Negation of a decimal (canonical form is preserved). -/
def Dec.neg (d : Dec) : Dec := ⟨-d.m, d.e⟩

/-- Values stored in an output row.  `point` models the structured geojson
object `\x7btype: "Point", coordinates\x7d`; `arr` models a JS array of row
references (used for repeat collections), holding heap indices. -/
inductive Value where
  | str (s : String)
  | num (d : Dec)
  | nan
  | point (coordinates : List Dec)
  | arr (elems : List Nat)
deriving DecidableEq

/-- A schema field: `src/lib/data/json.js` reads `field.name`,
`field.type` (a string: "structure", "repeat", "int", "decimal",
"geopoint", anything else is treated as raw text) and `field.children`
(an object mapping tag names to child fields, modelled as an association
list). -/
inductive SchemaField where
  | mk (name : String) (type : String) (children : List (String × SchemaField))

/-- SchemaField name accessor. -/
def SchemaField.name : SchemaField → String
  | .mk n _ _ => n

/-- SchemaField type accessor. -/
def SchemaField.type : SchemaField → String
  | .mk _ t _ => t

/-- SchemaField children accessor. -/
def SchemaField.children : SchemaField → List (String × SchemaField)
  | .mk _ _ c => c

/-- First-match lookup in an association list (JS object property read). -/
def lookupKey {α : Type} (k : String) : List (String × α) → Option α
  | [] => none
  | (k₁, v) :: rest => if k₁ = k then some v else lookupKey k rest

/-- JS property assignment on an insertion-ordered object: update the key in
place if present, append it otherwise. -/
def setKey {α : Type} (r : List (String × α)) (k : String) (v : α) : List (String × α) :=
  match r with
  | [] => [(k, v)]
  | (k₁, v₁) :: rest => if k₁ = k then (k, v) :: rest else (k₁, v₁) :: setKey rest k v

/-- An output row: an insertion-ordered mapping from string keys to values. -/
abbrev Row := List (String × Value)

/-- The heap of allocated row objects; stack and result entries are indices
into it (making the aliasing of the source explicit). -/
abbrev Heap := List Row

/-- Write key `k` of the row at heap index `i`. -/
def heapSet (h : Heap) (i : Nat) (k : String) (v : Value) : Heap :=
  h.set i (setKey (h.getD i []) k v)

/-- `ptr` (ramda `last`) over a stack of nullable entries, with the JS
`undefined` of an empty array collapsed into `none` (the source only ever
tests it with `!= null`, which does not distinguish the two). -/
def ptrO {α : Type} (l : List (Option α)) : Option α := l.head?.getD none

/-- The name of a stack entry.  In the source a `null` frame reaching
`field.name` would throw; that path is unreachable (a `null` frame never
has a non-null frame above it), so the model totalizes it with `""`. -/
def fieldName : Option SchemaField → String
  | some f => f.name
  | none => ""

/-- The type of a stack entry, totalized like `fieldName`. -/
def fieldType : Option SchemaField → String
  | some f => f.type
  | none => ""

/-- String interpolation of an iteration value, as JS template literals
render it (`none` is JS `undefined`, only ever interpolated on unreachable
paths). -/
def iterRepr : Option Iter → String
  | some (.str s) => s
  | some (.nat n) => toString n
  | none => "undefined"

/-- JS `join(sep)` over a list of strings. -/
def joinSep (sep : String) : List String → String
  | [] => ""
  | [x] => x
  | x :: xs => x ++ sep ++ joinSep sep xs

/-- Modelled from the spec: `isBlank` lives in `lib/util/util.js`, which is
outside `src/`.  Per the spec (§4.3, a step with "no live iteration"), blank
means null, undefined or the empty string; numbers, including 0, are not
blank. -/
def isBlank : Option Iter → Bool
  | none => true
  | some (.str s) => s = ""
  | some (.nat _) => false

/-- Modelled from the spec: `shasum` lives in `lib/util/crypto.js`, which is
outside `src/`.  The spec (§4.2) requires a deterministic digest whose
distinct inputs are relied on to give distinct ids; it is modelled as an
injective tagging function, idealizing collision freedom. -/
def shasum (s : String) : String := "sha256:" ++ s

/-- Split a character list at every character satisfying `p`; `n`
separators yield `n + 1` pieces, empty pieces included. -/
def splitChars (p : Char → Bool) : List Char → List (List Char)
  | [] => [[]]
  | c :: cs =>
    if p c then [] :: splitChars p cs
    else
      match splitChars p cs with
      | [] => [[c]]
      | t :: ts => (c :: t) :: ts

/-- Modelled from the spec: `stripNamespacesFromPath` lives in
`lib/util/xml.js`, outside `src/`.  Per the spec (§6) it maps a raw,
possibly prefixed tag name to its local name: the part after the last
colon. -/
def stripNamespacesFromPath (s : String) : String :=
  String.mk ((splitChars (fun c => c = ':') s.toList).getLastD s.toList)

/-- JS `String.prototype.startsWith`, character by character (the core
`String.startsWith` is an equivalent byte-level loop). -/
def strStartsWith (s pre : String) : Bool := go pre.toList s.toList
where
  /-- Prefix test on character lists. -/
  go : List Char → List Char → Bool
    | [], _ => true
    | _ :: _, [] => false
    | p :: ps, c :: cs => p = c && go ps cs

/-- `hashId` (json.js line 23): digest of the ancestry, one
`<fieldName>#<iterationValue>` part per stack entry joined by `%%`.  The
stack is given root-first, as the source builds it. -/
def hashId (stack : List (Option SchemaField × Option Iter)) : String :=
  shasum (joinSep "%%" (stack.map (fun p => fieldName p.1 ++ "#" ++ iterRepr p.2)))

/-- `getBranchState` (json.js lines 9-14): compare the field stack, given
root-first as in the source, to a target table name; 0 = at, 1 = in,
-1 = out. -/
def getBranchState (fieldStack : List (Option SchemaField)) (table : String) : Int :=
  let impliedTableName := joinSep "." (fieldStack.map fieldName)
  if impliedTableName = table then 0
  else if strStartsWith impliedTableName table then 1
  else -1

/-- Loop body of `navigationLink` (json.js lines 26-37): walks the field
stack root-first, pairing each entry with the matching iteration stack entry
(`none` once the iteration stack is exhausted, as JS indexing past the end
yields `undefined`), while growing the context used for hashing. -/
def navLinkGo (ctx : List (Option SchemaField × Option Iter)) :
    List (Option SchemaField) → List (Option Iter) → List String
  | [], _ => []
  | f :: fs, is =>
    let io := is.headD none
    let rest := is.tail
    let ctx₁ := ctx ++ [(f, io)]
    let step :=
      if isBlank io then fieldName f
      else fieldName f ++ "(" ++ sqc ++
        (if ctx₁.length = 1 then iterRepr io else hashId ctx₁) ++ sqc ++ ")"
    step :: navLinkGo ctx₁ fs rest

/-- `navigationLink` (json.js lines 26-37); both stacks root-first as in the
source. -/
def navigationLink (fieldStack : List (Option SchemaField)) (iterationStack : List (Option Iter)) :
    String :=
  joinSep "/" (navLinkGo [] fieldStack iterationStack)

/-- Scanner events delivered by the streaming XML tokenizer. -/
inductive Ev where
  | openTag (fullname : String)
  | text (content : String)
  | closeTag
deriving DecidableEq

/-- A submission: its instanceId together with the open/text/close event
stream its xml produces on the external scanner. -/
structure Submission where
  instanceId : String
  events : List Ev

/-- Walker state: the heap of allocated rows, the four traversal stacks
(top at the head), the accumulated result (heap indices) and the
dropped-wrapper flag. -/
structure St where
  rows : Heap
  fieldStack : List (Option SchemaField)
  dataStack : List (Option Nat)
  iterationStack : List (Option Iter)
  nsStack : List (Option String)
  result : List Nat
  droppedWrapper : Bool

/-- Conversion parameters threaded through the handlers. -/
structure Ctx where
  table : String
  iid : String
  wkt : Bool

/-- Push `null` on all four stacks (the unknown-field branch, and the popped
shape of the nested-repeat skip branch). -/
def pushNulls (st : St) : St :=
  { st with
    fieldStack := none :: st.fieldStack
    dataStack := none :: st.dataStack
    iterationStack := none :: st.iterationStack
    nsStack := none :: st.nsStack }

/-- `pushPtr` on one stack: push the current top again (JS pushes
`undefined` when the stack is empty, collapsed into `none`). -/
def pushTop {α : Type} (l : List (Option α)) : List (Option α) :=
  (l.head?.getD none) :: l

/-- The JS number-or-NaN resulting from `parseInt` / `parseFloat`. -/
def numOrNaN : Option Dec → Value
  | some d => .num d
  | none => .nan

/-- Digit-prefix value: the longest leading run of decimal digits, `none`
if there is none. -/
def leadDigits (cs : List Char) : Option Nat :=
  let ds := cs.takeWhile Char.isDigit
  if ds.isEmpty then none
  else some (ds.foldl (fun a c => a * 10 + (c.toNat - 48)) 0)

/-- JS `parseInt(text)` on decimal input: skip leading whitespace, optional
sign, then the longest decimal digit prefix; NaN (`none`) when no digit
follows.  (The hexadecimal `0x` prefix of the radix-free builtin is not
exercised by any claim and is not modelled.) -/
def parseIntJS (s : String) : Option Int :=
  let cs := s.toList.dropWhile Char.isWhitespace
  match cs with
  | '-' :: rest => (leadDigits rest).map (fun n => -(n : Int))
  | '+' :: rest => (leadDigits rest).map (fun n => (n : Int))
  | _ => (leadDigits cs).map (fun n => (n : Int))

/-- Mantissa and exponent part of the JS float grammar, applied to a list of
characters already past the sign: digits, optional dot and more digits,
optional exponent.  Returns `none` when no digit occurs in the mantissa;
otherwise the exact decimal `digits(ip ++ fp) * 10 ^ exp / 10 ^ |fp|`. -/
def parseMantissa (cs : List Char) : Option Dec :=
  let ip := cs.takeWhile Char.isDigit
  let cs₁ := cs.dropWhile Char.isDigit
  let fp := match cs₁ with
    | '.' :: r => r.takeWhile Char.isDigit
    | _ => []
  let cs₂ := match cs₁ with
    | '.' :: r => r.dropWhile Char.isDigit
    | _ => cs₁
  if ip.isEmpty ∧ fp.isEmpty then none
  else
    let mant : Int := ((ip ++ fp).foldl (fun a c => a * 10 + (c.toNat - 48)) 0 : Nat)
    let exp : Int := match cs₂ with
      | 'e' :: r => expPart r
      | 'E' :: r => expPart r
      | _ => 0
    some (match exp with
      | .ofNat k => normDec (mant * (10 : Int) ^ k) fp.length
      | .negSucc k => normDec mant (fp.length + (k + 1)))
where
  /-- Exponent: optional sign then digits; a malformed exponent contributes
  nothing (JS stops the parse before it). -/
  expPart : List Char → Int
    | '-' :: r => -((leadDigits r).getD 0 : Int)
    | '+' :: r => ((leadDigits r).getD 0 : Int)
    | r => ((leadDigits r).getD 0 : Int)

/-- JS `parseFloat(text)` on decimal input: skip leading whitespace,
optional sign, longest float-literal prefix; NaN (`none`) when no digits.
(`Infinity` is not exercised by any claim and is not modelled.) -/
def parseFloatJS (s : String) : Option Dec :=
  let cs := s.toList.dropWhile Char.isWhitespace
  match cs with
  | '-' :: rest => (parseMantissa rest).map Dec.neg
  | '+' :: rest => parseMantissa rest
  | _ => parseMantissa cs

/-- JS `text.split(/\s+/g)`: split on maximal whitespace runs, keeping the
empty pieces a leading or trailing run produces but no interior empties.
Implemented from the single-character split by dropping interior empty
pieces. -/
def jsSplitWs (s : String) : List String :=
  match (splitChars Char.isWhitespace s.toList).map String.mk with
  | [] => [""]
  | [x] => [x]
  | x :: xs => x :: ((xs.dropLast.filter (fun t => ¬ t = "")) ++ [xs.getLastD ""])

/-- Rendering of a JS number inside a WKT string (`coordinates.join(' ')`):
integral values print without a decimal part, fractional ones with a
decimal point (exact decimal rendering; the shortest-roundtrip float
rendering of JS agrees on every value a claim exercises). -/
def decRepr (d : Dec) : String :=
  if d.e = 0 then toString d.m
  else
    let sign := if d.m < 0 then "-" else ""
    let ds := (toString d.m.natAbs).toList
    if d.e < ds.length then
      sign ++ String.mk (ds.take (ds.length - d.e)) ++ "." ++
        String.mk (ds.drop (ds.length - d.e))
    else
      sign ++ "0." ++ String.mk (List.replicate (d.e - ds.length) '0') ++ String.mk ds

/-- The output key for a field name under the active namespace prefix:
`<nsPtr>__<name>` when a prefix is active, the bare name otherwise
(the `target` computation of json.js lines 99 and 170). -/
def nsTarget (ns : Option String) (n : String) : String :=
  match ns with
  | none => n
  | some p => p ++ "__" ++ n

/-- The altitude contribution of a geopoint text: the third whitespace
token when present and parseable, nothing otherwise (json.js line 184). -/
def geoAlt (text : String) : List Dec :=
  match ((jsSplitWs text).map parseFloatJS).tail.tail.head? with
  | some (some a) => [a]
  | _ => []

/-- The geopoint coercion of json.js lines 178-189: split the text on
whitespace into latitude, longitude and optional altitude; `none` when
latitude or longitude is missing or NaN (the early returns of the source);
otherwise the WKT string or the structured point, by the `wkt` option. -/
def geoValue (wkt : Bool) (text : String) : Option Value :=
  let nums := (jsSplitWs text).map parseFloatJS
  match nums.head?, nums.tail.head? with
  | some latO, some lonO =>
    match latO, lonO with
    | some lat, some lon =>
      let coordinates := [lon, lat] ++ geoAlt text
      some (if wkt then
          Value.str ("POINT (" ++ joinSep " " (coordinates.map decRepr) ++ ")")
        else Value.point coordinates)
    | _, _ => none
  | _, _ => none

/-- `onopentag` (json.js lines 65-163). -/
def onopentag (ctx : Ctx) (st : St) (fullname : String) : St :=
  -- drop the root xml tag.
  if st.droppedWrapper = false then { st with droppedWrapper := true }
  else
    let name := stripNamespacesFromPath fullname
    match ptrO st.fieldStack with
    | none => pushNulls st
    | some fieldPtr =>
      match lookupKey name fieldPtr.children with
      | none => pushNulls st
      | some field =>
        let fieldStack₁ := some field :: st.fieldStack
        if field.type = "structure" then
          { st with
            fieldStack := fieldStack₁
            dataStack := pushTop st.dataStack
            iterationStack := some (.str "") :: st.iterationStack
            nsStack :=
              (match ptrO st.nsStack with
               | none => some field.name
               | some p => some (p ++ "__" ++ field.name)) :: st.nsStack }
        else if field.type = "repeat" then
          match ptrO st.dataStack with
          | none =>
            -- unreachable in the source: a frame with a schema field always
            -- carries a data cursor (dereferencing null would throw there).
            pushNulls st
          | some dp =>
            -- push a navigation link into the data no matter what.
            let target := nsTarget (ptrO st.nsStack) name
            let rows₁ := heapSet st.rows dp (target ++ "@odata.navigationLink")
              (.str (navigationLink fieldStack₁.reverse st.iterationStack.reverse))
            let branchState := getBranchState fieldStack₁.reverse ctx.table
            if branchState < 1 then
              let arr := match lookupKey name (rows₁.getD dp []) with
                | some (.arr l) => l
                | some _ => []   -- unreachable: only this branch writes that key
                | none => []
              let iterationStack₁ := some (.nat arr.length) :: st.iterationStack
              let ctxStack := List.zip fieldStack₁ iterationStack₁
              let bagId := rows₁.length
              let rows₂ := heapSet rows₁ dp name (.arr (arr ++ [bagId]))
              let rows₃ := rows₂ ++ [[("__id", Value.str (hashId ctxStack.reverse))]]
              let st₁ : St :=
                { st with
                  rows := rows₃
                  fieldStack := fieldStack₁
                  dataStack := some bagId :: st.dataStack
                  iterationStack := iterationStack₁
                  nsStack := none :: st.nsStack }
              if branchState = 0 then
                -- drop one entry, then continue dropping until the next repeat.
                let rest := (ctxStack.drop 1).dropWhile (fun p => ¬ fieldType p.1 = "repeat")
                let rows₄ :=
                  if rest.isEmpty then
                    heapSet rows₃ bagId "__Submissions-id" (.str ctx.iid)
                  else
                    heapSet rows₃ bagId
                      ("__" ++ joinSep "-" (rest.reverse.map (fun p => fieldName p.1)) ++ "-id")
                      (.str (hashId rest.reverse))
                { st₁ with rows := rows₄, result := st.result ++ [bagId] }
              else st₁
            else
              -- now reset context so subtables are not emitted: the pushed
              -- field is popped again and null goes on all four stacks, but
              -- the navigation link write is kept.
              { pushNulls st with rows := rows₁ }
        else
          { st with
            fieldStack := fieldStack₁
            dataStack := pushTop st.dataStack
            iterationStack := pushTop st.iterationStack
            nsStack := pushTop st.nsStack }

/-- `ontext` (json.js lines 164-195). -/
def ontext (ctx : Ctx) (st : St) (text : String) : St :=
  match ptrO st.fieldStack with
  | none => st
  | some fieldPtr =>
    -- fieldPtr.name != null always holds in the model (names are strings).
    if getBranchState st.fieldStack.reverse ctx.table = 1 then
      match ptrO st.dataStack with
      | none => st  -- unreachable: a schema frame always carries a data cursor
      | some dp =>
        let target := nsTarget (ptrO st.nsStack) fieldPtr.name
        if fieldPtr.type = "structure" ∨ fieldPtr.type = "repeat" then st
        else if fieldPtr.type = "int" then
          { st with rows := heapSet st.rows dp target (numOrNaN ((parseIntJS text).map (fun n => ⟨n, 0⟩))) }
        else if fieldPtr.type = "decimal" then
          { st with rows := heapSet st.rows dp target (numOrNaN (parseFloatJS text)) }
        else if fieldPtr.type = "geopoint" then
          match geoValue ctx.wkt text with
          | some v => { st with rows := heapSet st.rows dp target v }
          | none => st
        else
          { st with rows := heapSet st.rows dp target (.str text) }
    else st

/-- `onclosetag` (json.js lines 196-207): pop all four stacks. -/
def onclosetag (st : St) : St :=
  { st with
    fieldStack := st.fieldStack.tail
    dataStack := st.dataStack.tail
    iterationStack := st.iterationStack.tail
    nsStack := st.nsStack.tail }

/-- One scanner event applied to the state. -/
def stepEv (ctx : Ctx) (st : St) : Ev → St
  | .openTag n => onopentag ctx st n
  | .text t => ontext ctx st t
  | .closeTag => onclosetag st

/-- The event loop: after each close the handler resolves with the result
when the field stack is empty (dereferencing the result pointers in the
final heap); if the events end without that, the promise never settles
(`none`). -/
def runEvents (ctx : Ctx) : St → List Ev → Option (List Row)
  | _, [] => none
  | st, ev :: rest =>
    match ev with
    | .closeTag =>
      let st₁ := onclosetag st
      if st₁.fieldStack.isEmpty then some (st₁.result.map (fun i => st₁.rows.getD i []))
      else runEvents ctx st₁ rest
    | _ => runEvents ctx (stepEv ctx st ev) rest

/-- Initial walker state (json.js lines 44-60): the synthetic root frame is
named `Submissions`, seeded with the instanceId; when the requested table is
`Submissions` the root record is pushed into the result up front.  (The
source gives the root frame no `type` property; the model uses `""`.) -/
def initState (fields : List (String × SchemaField)) (iid : String) (table : String) : St :=
  { rows := [[("__id", Value.str iid)]]
    fieldStack := [some (SchemaField.mk "Submissions" "" fields)]
    dataStack := [some 0]
    iterationStack := [some (.str iid)]
    nsStack := [none]
    result := if table = "Submissions" then [0] else []
    droppedWrapper := false }

/-- `submissionToOData` (json.js lines 40-210) over the delivered event
stream; `wkt` defaults to the structured (geojson) form as in the source
(`options = \x7b\x7d`). -/
def submissionToOData (fields : List (String × SchemaField)) (table : String) (sub : Submission)
    (wkt : Bool := false) : Option (List Row) :=
  runEvents ⟨table, sub.instanceId, wkt⟩ (initState fields sub.instanceId table) sub.events

/-- The four traversal stacks are synchronized: one common depth. -/
def Sync (st : St) : Prop :=
  st.fieldStack.length = st.dataStack.length ∧
  st.fieldStack.length = st.iterationStack.length ∧
  st.fieldStack.length = st.nsStack.length

instance : DecidablePred Sync := fun st => by unfold Sync; infer_instance

/-- The walker state reached after a prefix of the event stream. -/
def stateAfter (ctx : Ctx) (st : St) (evs : List Ev) : St :=
  evs.foldl (stepEv ctx) st

/-- What the claimed reading of the branch locator calls a proper extension:
the current path continues the target past a separator boundary. -/
def sepExtension (implied table : String) : Bool :=
  strStartsWith implied (table ++ ".")

/-- Decimal value of a digit-character list (used to invert `Nat.repr`). -/
def charsVal (acc : Nat) : List Char → Nat
  | [] => acc
  | c :: cs => charsVal (acc * 10 + (c.toNat - 48)) cs

/-- Pair the navigation stacks positionally, padding a too-short iteration
stack with `none` (JS indexing past the array end yields `undefined`). -/
def zipPad : List (Option SchemaField) → List (Option Iter) → List (Option SchemaField × Option Iter)
  | [], _ => []
  | f :: fs, is => (f, is.headD none) :: zipPad fs is.tail

/-- Closed-form description of the `i`-th step of a navigation link: the
bare field name when the iteration value at `i` is not live; otherwise
`name(<key>)` where the key is the literal iteration value at the first
step and the ancestry hash truncated to the step everywhere deeper. -/
def navStep (fs : List (Option SchemaField)) (is : List (Option Iter)) (i : Nat) : String :=
  let f := fs.getD i none
  let io := is.getD i none
  if isBlank io then fieldName f
  else fieldName f ++ "(" ++ sqc ++
    (if i = 0 then iterRepr io else hashId ((zipPad fs is).take (i + 1))) ++ sqc ++ ")"

/-- A mid-conversion fixture state used to witness text-event theorems: one
row on the heap, a scalar field of type `t` on top of the root frame. -/
def wSt (t : String) : St :=
  { rows := [[("__id", Value.str "x"), ("other", Value.str "y")]]
    fieldStack := [some (SchemaField.mk "g" t []), some (SchemaField.mk "Submissions" "" [])]
    dataStack := [some 0, some 0]
    iterationStack := [some (.str "x"), some (.str "x")]
    nsStack := [none, none]
    result := [0]
    droppedWrapper := true }

/-- Conversion parameters used by the witnesses. -/
def wCtx (wkt : Bool) : Ctx := ⟨"Submissions", "x", wkt⟩

/-- A fixture state for the repeat-open witnesses: the root frame whose
schema holds one repeat `a`, right after the envelope was dropped. -/
def wStA : St :=
  { rows := [[("__id", Value.str "w")]]
    fieldStack := [some (SchemaField.mk "Submissions" ""
      [("a", SchemaField.mk "a" "repeat" [])])]
    dataStack := [some 0]
    iterationStack := [some (.str "w")]
    nsStack := [none]
    result := []
    droppedWrapper := true }

/-- The nested-repeat schema of the spec test case: repeat `a` containing
repeat `b`. -/
def nestedFields : List (String × SchemaField) :=
  [("a", SchemaField.mk "a" "repeat" [("b", SchemaField.mk "b" "repeat" [])])]

/-- The event stream of the nested-repeat test case: two `a` instances,
each holding one `b`. -/
def nestedEvs : List Ev :=
  [.openTag "env",
   .openTag "a", .openTag "b", .closeTag, .closeTag,
   .openTag "a", .openTag "b", .closeTag, .closeTag,
   .closeTag]

/-- A schema with one repeat `a` and one text field `s`, for the
sibling-content insensitivity test. -/
def siblingFields : List (String × SchemaField) :=
  [("a", SchemaField.mk "a" "repeat" []), ("s", SchemaField.mk "s" "text" [])]

/-- Events writing `t` into the text sibling and then opening the repeat. -/
def siblingEvs (t : String) : List Ev :=
  [.openTag "env", .openTag "s", .text t, .closeTag,
   .openTag "a", .closeTag, .closeTag]

/-- A schema with one int and one text field, for the coercion-failure
test. -/
def coercionFields : List (String × SchemaField) :=
  [("age", SchemaField.mk "age" "int" []), ("name", SchemaField.mk "name" "text" [])]

/-- Events delivering unparseable int text followed by a good text field. -/
def coercionEvs : List Ev :=
  [.openTag "env", .openTag "age", .text "abc", .closeTag,
   .openTag "name", .text "bob", .closeTag, .closeTag]

/-- A schema holding a single geopoint field `g`. -/
def geoFields : List (String × SchemaField) := [("g", SchemaField.mk "g" "geopoint" [])]

/-- Events delivering the given text payloads into the geopoint field. -/
def geoEvs (ts : List String) : List Ev :=
  [Ev.openTag "env", Ev.openTag "g"] ++ ts.map Ev.text ++ [Ev.closeTag, Ev.closeTag]

/-- A schema whose only field is a text field literally named `__id`. -/
def idOverwriteFields : List (String × SchemaField) :=
  [("__id", SchemaField.mk "__id" "text" [])]

/-- Events writing `boo` into the field named `__id`. -/
def idOverwriteEvs : List Ev :=
  [.openTag "env", .openTag "__id", .text "boo", .closeTag, .closeTag]

/-! ## Helper lemmas: association lists, heap, joins, digests -/

theorem lookupKey_setKey_self {α : Type} (r : List (String × α)) (k : String) (v : α) :
    lookupKey k (setKey r k v) = some v := by
  induction r with
  | nil => simp [setKey, lookupKey]
  | cons p rest ih =>
    obtain ⟨k₁, v₁⟩ := p
    by_cases h : k₁ = k
    · simp [setKey, h, lookupKey]
    · simp [setKey, h, lookupKey, ih]

theorem lookupKey_setKey_other {α : Type} (r : List (String × α)) (k k₁ : String) (v : α)
    (h : ¬ k₁ = k) : lookupKey k₁ (setKey r k v) = lookupKey k₁ r := by
  induction r with
  | nil =>
    have h₂ : ¬ k = k₁ := fun hh => h hh.symm
    simp [setKey, lookupKey, h₂]
  | cons p rest ih =>
    obtain ⟨k₂, v₂⟩ := p
    by_cases h₂ : k₂ = k
    · subst h₂
      have h₃ : ¬ k₂ = k₁ := fun hh => h hh.symm
      simp [setKey, lookupKey, h₃]
    · simp [setKey, h₂, lookupKey, ih]

theorem getD_set_self {α : Type} :
    ∀ (l : List α) (i : Nat) (x d : α), i < l.length → (l.set i x).getD i d = x
  | [], i, _, _, h => absurd h (by simp)
  | _ :: _, 0, _, _, _ => rfl
  | _ :: l, i + 1, x, d, h => getD_set_self l i x d (by simpa using h)

theorem getD_set_other {α : Type} :
    ∀ (l : List α) (i j : Nat) (x d : α), ¬ i = j → (l.set i x).getD j d = l.getD j d
  | [], _, _, _, _, _ => by simp
  | _ :: _, 0, 0, _, _, h => absurd rfl h
  | _ :: _, 0, _ + 1, _, _, _ => rfl
  | _ :: _, _ + 1, 0, _, _, _ => rfl
  | _ :: l, i + 1, j + 1, x, d, h => getD_set_other l i j x d (fun hh => h (by omega))

theorem heapSet_length (h : Heap) (i : Nat) (k : String) (v : Value) :
    (heapSet h i k v).length = h.length := by
  simp [heapSet]

theorem heapSet_getD_self (h : Heap) (i : Nat) (k : String) (v : Value) (hi : i < h.length) :
    (heapSet h i k v).getD i [] = setKey (h.getD i []) k v :=
  getD_set_self _ _ _ _ hi

theorem heapSet_getD_other (h : Heap) (i j : Nat) (k : String) (v : Value) (hij : ¬ i = j) :
    (heapSet h i k v).getD j [] = h.getD j [] :=
  getD_set_other _ _ _ _ _ hij

theorem str_append_left_cancel (c a b : String) (h : c ++ a = c ++ b) : a = b := by
  apply String.ext
  have h₂ := congrArg String.data h
  simp only [String.data_append] at h₂
  exact List.append_cancel_left h₂

theorem str_append_right_cancel (c a b : String) (h : a ++ c = b ++ c) : a = b := by
  apply String.ext
  have h₂ := congrArg String.data h
  simp only [String.data_append] at h₂
  exact List.append_cancel_right h₂

theorem joinSep_cons_of_ne_nil (sep x : String) (xs : List String) (h : xs ≠ []) :
    joinSep sep (x :: xs) = x ++ sep ++ joinSep sep xs := by
  cases xs with
  | nil => exact absurd rfl h
  | cons y ys => rfl

theorem joinSep_ne_of_single_diff (sep : String) :
    ∀ (P Q : List String) (s t : String), ¬ s = t →
      ¬ joinSep sep (P ++ s :: Q) = joinSep sep (P ++ t :: Q) := by
  intro P
  induction P with
  | nil =>
    intro Q s t hst h
    cases Q with
    | nil => exact hst h
    | cons q qs =>
      rw [List.nil_append, List.nil_append,
        joinSep_cons_of_ne_nil sep s (q :: qs) (by simp),
        joinSep_cons_of_ne_nil sep t (q :: qs) (by simp)] at h
      exact hst (str_append_right_cancel _ _ _ (str_append_right_cancel _ _ _ h))
  | cons p P ih =>
    intro Q s t hst h
    rw [List.cons_append, List.cons_append,
      joinSep_cons_of_ne_nil sep p (P ++ s :: Q) (by simp),
      joinSep_cons_of_ne_nil sep p (P ++ t :: Q) (by simp)] at h
    exact ih Q s t hst (str_append_left_cancel (p ++ sep) _ _ h)

theorem shasum_inj (a b : String) (h : shasum a = shasum b) : a = b :=
  str_append_left_cancel _ _ _ h

/-- The digest input depends only on the names and the interpolated
iteration values of the ancestry. -/
theorem pairRepr_map_congr :
    ∀ (s₁ s₂ : List (Option SchemaField × Option Iter)),
      s₁.map (fun p => fieldName p.1) = s₂.map (fun p => fieldName p.1) →
      s₁.map (fun p => iterRepr p.2) = s₂.map (fun p => iterRepr p.2) →
      s₁.map (fun p => fieldName p.1 ++ "#" ++ iterRepr p.2) =
        s₂.map (fun p => fieldName p.1 ++ "#" ++ iterRepr p.2) := by
  intro s₁
  induction s₁ with
  | nil => intro s₂ hn _; cases s₂ with
    | nil => rfl
    | cons b s => simp at hn
  | cons a s ih =>
    intro s₂ hn hi
    cases s₂ with
    | nil => simp at hn
    | cons b s₂' =>
      simp only [List.map_cons, List.cons.injEq] at hn hi ⊢
      exact ⟨by rw [hn.1, hi.1], ih s₂' hn.2 hi.2⟩

theorem hashId_congr (s₁ s₂ : List (Option SchemaField × Option Iter))
    (hn : s₁.map (fun p => fieldName p.1) = s₂.map (fun p => fieldName p.1))
    (hi : s₁.map (fun p => iterRepr p.2) = s₂.map (fun p => iterRepr p.2)) :
    hashId s₁ = hashId s₂ := by
  unfold hashId
  rw [pairRepr_map_congr s₁ s₂ hn hi]

theorem hashId_ne_of_entry_ne (P Q : List (Option SchemaField × Option Iter))
    (p q : Option SchemaField × Option Iter)
    (h : ¬ (fieldName p.1 ++ "#" ++ iterRepr p.2) = (fieldName q.1 ++ "#" ++ iterRepr q.2)) :
    ¬ hashId (P ++ p :: Q) = hashId (P ++ q :: Q) := by
  intro he
  apply joinSep_ne_of_single_diff "%%"
    (P.map (fun r => fieldName r.1 ++ "#" ++ iterRepr r.2))
    (Q.map (fun r => fieldName r.1 ++ "#" ++ iterRepr r.2))
    _ _ h
  have h₂ := shasum_inj _ _ he
  simpa [hashId, List.map_append] using h₂

/-- Value of a decimal digit character produced by `Nat.digitChar`. -/
theorem digitChar_val (d : Nat) (h : d < 10) : (Nat.digitChar d).toNat - 48 = d := by
  interval_cases d <;> decide

/-- `Nat.toDigitsCore` prepends the decimal digits of `n`: reading the
produced character list back with `charsVal` recovers `n` shifted into the
accumulator. -/
theorem charsVal_toDigitsCore :
    ∀ (fuel n : Nat) (ds : List Char), n < fuel →
      charsVal 0 (Nat.toDigitsCore 10 fuel n ds) = charsVal n ds := by
  intro fuel
  induction fuel with
  | zero => intro n ds h; exact absurd h (Nat.not_lt_zero n)
  | succ fuel ih =>
    intro n ds h
    by_cases h₁ : n / 10 = 0
    · have h₂ : n % 10 = n := Nat.mod_eq_of_lt (by omega)
      rw [Nat.toDigitsCore]
      simp only [h₁, if_true]
      show charsVal (0 * 10 + ((Nat.digitChar (n % 10)).toNat - 48)) ds = charsVal n ds
      rw [digitChar_val (n % 10) (Nat.mod_lt n (by norm_num)), h₂]
      norm_num
    · have h₂ : n / 10 < fuel := by omega
      rw [Nat.toDigitsCore]
      simp only [h₁, if_false]
      rw [ih (n / 10) _ h₂]
      show charsVal ((n / 10) * 10 + ((Nat.digitChar (n % 10)).toNat - 48)) ds = charsVal n ds
      rw [digitChar_val (n % 10) (Nat.mod_lt n (by norm_num))]
      have h₃ : n / 10 * 10 + n % 10 = n := by omega
      rw [h₃]

/-- Reading the decimal representation back recovers the number. -/
theorem charsVal_toDigits (n : Nat) : charsVal 0 (Nat.toDigits 10 n) = n := by
  have h := charsVal_toDigitsCore (n + 1) n [] (Nat.lt_succ_self n)
  exact h

/-- Decimal rendering of naturals is injective: distinct iteration indices
interpolate to distinct strings. -/
theorem natToString_inj (i j : Nat) (h : toString i = toString j) : i = j := by
  have h₂ : (Nat.toDigits 10 i).asString = (Nat.toDigits 10 j).asString := h
  have h₃ : Nat.toDigits 10 i = Nat.toDigits 10 j := by
    have := congrArg String.data h₂
    simpa [List.asString] using this
  calc i = charsVal 0 (Nat.toDigits 10 i) := (charsVal_toDigits i).symm
    _ = charsVal 0 (Nat.toDigits 10 j) := by rw [h₃]
    _ = j := charsVal_toDigits j

/-- Two ancestries that agree except in one entry, where the field is the
same but the numeric iteration position differs, hash to different ids. -/
theorem hashId_ne_of_iter_ne (P Q : List (Option SchemaField × Option Iter))
    (f : Option SchemaField) (i j : Nat) (hij : ¬ i = j) :
    ¬ hashId (P ++ (f, some (.nat i)) :: Q) = hashId (P ++ (f, some (.nat j)) :: Q) := by
  apply hashId_ne_of_entry_ne
  intro h
  apply hij
  have h₂ : iterRepr (some (.nat i)) = iterRepr (some (.nat j)) :=
    str_append_left_cancel (fieldName f ++ "#") _ _ h
  exact natToString_inj i j (by simpa [iterRepr] using h₂)

/-! ## Walker-level helper lemmas -/

theorem ontext_frame (ctx : Ctx) (st : St) (text : String) :
    (ontext ctx st text).fieldStack = st.fieldStack ∧
    (ontext ctx st text).dataStack = st.dataStack ∧
    (ontext ctx st text).iterationStack = st.iterationStack ∧
    (ontext ctx st text).nsStack = st.nsStack ∧
    (ontext ctx st text).result = st.result ∧
    (ontext ctx st text).droppedWrapper = st.droppedWrapper := by
  unfold ontext
  repeat' split
  all_goals simp

theorem ontext_int_eq (ctx : Ctx) (st : St) (text : String) (f : SchemaField) (dp : Nat)
    (hf : ptrO st.fieldStack = some f) (ht : f.type = "int")
    (hb : getBranchState st.fieldStack.reverse ctx.table = 1)
    (hdp : ptrO st.dataStack = some dp) :
    ontext ctx st text =
      { st with rows := (heapSet st.rows dp (nsTarget (ptrO st.nsStack) f.name)
          (numOrNaN ((parseIntJS text).map (fun n => ⟨n, 0⟩)))) } := by
  unfold ontext
  simp [hf, ht, hb, hdp]

theorem ontext_decimal_eq (ctx : Ctx) (st : St) (text : String) (f : SchemaField) (dp : Nat)
    (hf : ptrO st.fieldStack = some f) (ht : f.type = "decimal")
    (hb : getBranchState st.fieldStack.reverse ctx.table = 1)
    (hdp : ptrO st.dataStack = some dp) :
    ontext ctx st text =
      { st with rows := (heapSet st.rows dp (nsTarget (ptrO st.nsStack) f.name)
          (numOrNaN (parseFloatJS text))) } := by
  unfold ontext
  simp [hf, ht, hb, hdp]

theorem ontext_geo_some_eq (ctx : Ctx) (st : St) (text : String) (f : SchemaField) (dp : Nat)
    (v : Value) (hf : ptrO st.fieldStack = some f) (ht : f.type = "geopoint")
    (hb : getBranchState st.fieldStack.reverse ctx.table = 1)
    (hdp : ptrO st.dataStack = some dp) (hv : geoValue ctx.wkt text = some v) :
    ontext ctx st text =
      { st with rows := (heapSet st.rows dp (nsTarget (ptrO st.nsStack) f.name) v) } := by
  unfold ontext
  simp [hf, ht, hb, hdp, hv]

theorem ontext_geo_none_eq (ctx : Ctx) (st : St) (text : String) (f : SchemaField)
    (hf : ptrO st.fieldStack = some f) (ht : f.type = "geopoint")
    (hv : geoValue ctx.wkt text = none) :
    ontext ctx st text = st := by
  unfold ontext
  simp [hf, ht, hv]
  intro _
  split <;> simp [ht, hv]

theorem ontext_default_eq (ctx : Ctx) (st : St) (text : String) (f : SchemaField) (dp : Nat)
    (hf : ptrO st.fieldStack = some f)
    (ht₁ : ¬ f.type = "structure") (ht₂ : ¬ f.type = "repeat") (ht₃ : ¬ f.type = "int")
    (ht₄ : ¬ f.type = "decimal") (ht₅ : ¬ f.type = "geopoint")
    (hb : getBranchState st.fieldStack.reverse ctx.table = 1)
    (hdp : ptrO st.dataStack = some dp) :
    ontext ctx st text =
      { st with rows := (heapSet st.rows dp (nsTarget (ptrO st.nsStack) f.name) (.str text)) } := by
  unfold ontext
  simp [hf, ht₁, ht₂, ht₃, ht₄, ht₅, hb, hdp]

theorem ontext_outside_eq (ctx : Ctx) (st : St) (text : String)
    (hb : ¬ getBranchState st.fieldStack.reverse ctx.table = 1) :
    ontext ctx st text = st := by
  unfold ontext
  split
  · rfl
  · simp [hb]

theorem onopentag_lengths (ctx : Ctx) (st : St) (n : String) (hd : st.droppedWrapper = true) :
    (onopentag ctx st n).fieldStack.length = st.fieldStack.length + 1 ∧
    (onopentag ctx st n).dataStack.length = st.dataStack.length + 1 ∧
    (onopentag ctx st n).iterationStack.length = st.iterationStack.length + 1 ∧
    (onopentag ctx st n).nsStack.length = st.nsStack.length + 1 := by
  unfold onopentag
  simp only [hd]
  repeat' split
  all_goals simp_all [pushNulls, pushTop]

theorem dot_mem_joinSep : ∀ (l : List String), 2 ≤ l.length → '.' ∈ (joinSep "." l).data
  | [], h => absurd h (by simp)
  | [_], h => absurd h (by simp)
  | a :: b :: r, _ => by
    rw [joinSep_cons_of_ne_nil "." a (b :: r) (by simp)]
    simp only [String.data_append]
    refine List.mem_append_left _ (List.mem_append_right _ ?_)
    decide

theorem getBranchState_ne_zero (fs : List (Option SchemaField)) (h : 2 ≤ fs.length) :
    ¬ getBranchState fs "Submissions" = 0 := by
  have hmem : '.' ∈ (joinSep "." (fs.map fieldName)).data :=
    dot_mem_joinSep _ (by simpa using h)
  have hne : ¬ joinSep "." (fs.map fieldName) = "Submissions" := by
    intro he
    rw [he] at hmem
    revert hmem
    decide
  unfold getBranchState
  simp only [hne, if_false]
  split <;> simp

theorem onopentag_at_eq (ctx : Ctx) (st : St) (fullname : String) (fp field : SchemaField)
    (dp : Nat) (hd : st.droppedWrapper = true) (hf : ptrO st.fieldStack = some fp)
    (hc : lookupKey (stripNamespacesFromPath fullname) fp.children = some field)
    (ht : field.type = "repeat") (hdp : ptrO st.dataStack = some dp)
    (hbs : getBranchState (some field :: st.fieldStack).reverse ctx.table = 0) :
    onopentag ctx st fullname =
      (let name := stripNamespacesFromPath fullname
      let rows₁ := heapSet st.rows dp (nsTarget (ptrO st.nsStack) name ++ "@odata.navigationLink")
        (.str (navigationLink (some field :: st.fieldStack).reverse st.iterationStack.reverse))
      let arr := match lookupKey name (rows₁.getD dp []) with
        | some (.arr l) => l
        | some _ => []
        | none => []
      let is₁ := some (.nat arr.length) :: st.iterationStack
      let ctxStack := List.zip (some field :: st.fieldStack) is₁
      let bagId := rows₁.length
      let rows₂ := heapSet rows₁ dp name (.arr (arr ++ [bagId]))
      let rows₃ := rows₂ ++ [[("__id", Value.str (hashId ctxStack.reverse))]]
      let rest := (ctxStack.drop 1).dropWhile (fun p => ¬ fieldType p.1 = "repeat")
      let rows₄ := if rest.isEmpty then heapSet rows₃ bagId "__Submissions-id" (.str ctx.iid)
        else heapSet rows₃ bagId
          ("__" ++ joinSep "-" (rest.reverse.map (fun p => fieldName p.1)) ++ "-id")
          (.str (hashId rest.reverse))
      { rows := rows₄
        fieldStack := some field :: st.fieldStack
        dataStack := some bagId :: st.dataStack
        iterationStack := is₁
        nsStack := none :: st.nsStack
        result := st.result ++ [bagId]
        droppedWrapper := st.droppedWrapper }) := by
  unfold onopentag
  simp only [hd, hf, hc, ht, hdp, hbs]
  simp [hd]

theorem getD_append_last {α : Type} : ∀ (l : List α) (x d : α), (l ++ [x]).getD l.length d = x
  | [], _, _ => rfl
  | _ :: l, x, d => getD_append_last l x d

theorem key_ne_id (s : String) : ¬ ("__" ++ s ++ "-id") = "__id" := by
  intro h
  have h₂ := congrArg String.length h
  simp only [String.length_append] at h₂
  have e₁ : ("__" : String).length = 2 := by decide
  have e₂ : ("-id" : String).length = 3 := by decide
  have e₃ : ("__id" : String).length = 4 := by decide
  omega

theorem setKey_id_pair (h : String) (k : String) (v : Value) (hne : ¬ k = "__id") :
    setKey [("__id", Value.str h)] k v = [("__id", Value.str h), (k, v)] := by
  have hne₂ : ¬ ("__id" : String) = k := fun hh => hne hh.symm
  simp [setKey, hne₂]

theorem bag_getD (rows₁ : Heap) (dp : Nat) (name : String) (arr : List Nat) (h bagK : String)
    (bagV : Value) (hk : ¬ bagK = "__id") :
    (heapSet (heapSet rows₁ dp name (Value.arr (arr ++ [rows₁.length])) ++
        [[("__id", Value.str h)]]) rows₁.length bagK bagV).getD rows₁.length [] =
      [("__id", Value.str h), (bagK, bagV)] := by
  have hlen : rows₁.length <
      (heapSet rows₁ dp name (Value.arr (arr ++ [rows₁.length])) ++ [[("__id", Value.str h)]]).length := by
    simp [heapSet_length]
  rw [heapSet_getD_self _ _ _ _ hlen]
  have h₂ : (heapSet rows₁ dp name (Value.arr (arr ++ [rows₁.length])) ++
      [[("__id", Value.str h)]]).getD rows₁.length [] = [("__id", Value.str h)] := by
    have h₃ := getD_append_last (heapSet rows₁ dp name (Value.arr (arr ++ [rows₁.length])))
      [("__id", Value.str h)] ([] : Row)
    rwa [heapSet_length] at h₃
  rw [h₂, setKey_id_pair _ _ _ hk]

-- the repeat-open At branch: the new bag carries its id and exactly one parent reference
theorem onopentag_at_parent_ref (ctx : Ctx) (st : St) (fullname : String) (fp field : SchemaField)
    (dp : Nat) (hd : st.droppedWrapper = true) (hf : ptrO st.fieldStack = some fp)
    (hc : lookupKey (stripNamespacesFromPath fullname) fp.children = some field)
    (ht : field.type = "repeat") (hdp : ptrO st.dataStack = some dp)
    (hbs : getBranchState (some field :: st.fieldStack).reverse ctx.table = 0) :
    (let name := stripNamespacesFromPath fullname
    let rows₁ := heapSet st.rows dp (nsTarget (ptrO st.nsStack) name ++ "@odata.navigationLink")
      (.str (navigationLink (some field :: st.fieldStack).reverse st.iterationStack.reverse))
    let arr := match lookupKey name (rows₁.getD dp []) with
      | some (.arr l) => l
      | some _ => []
      | none => []
    let ctxStack := List.zip (some field :: st.fieldStack) (some (.nat arr.length) :: st.iterationStack)
    let bagId := rows₁.length
    let rest := (ctxStack.drop 1).dropWhile (fun p => ¬ fieldType p.1 = "repeat")
    (onopentag ctx st fullname).result = st.result ++ [bagId] ∧
    (onopentag ctx st fullname).rows.getD bagId [] =
      (if rest.isEmpty then
        [("__id", Value.str (hashId ctxStack.reverse)), ("__Submissions-id", Value.str ctx.iid)]
      else
        [("__id", Value.str (hashId ctxStack.reverse)),
         ("__" ++ joinSep "-" (rest.reverse.map (fun p => fieldName p.1)) ++ "-id",
          Value.str (hashId rest.reverse))])) := by
  rw [onopentag_at_eq ctx st fullname fp field dp hd hf hc ht hdp hbs]
  simp only []
  refine ⟨trivial, ?_⟩
  split
  · exact bag_getD _ _ _ _ _ _ _ (by decide)
  · exact bag_getD _ _ _ _ _ _ _ (key_ne_id _)

theorem onopentag_result_sub (ctx : Ctx) (st : St) (n : String)
    (htab : ctx.table = "Submissions") : (onopentag ctx st n).result = st.result := by
  unfold onopentag
  by_cases hd : st.droppedWrapper = false
  · rw [if_pos hd]
  · rw [if_neg hd]
    rcases hptr : ptrO st.fieldStack with _ | fp
    · simp [pushNulls]
    · have hlen : 1 ≤ st.fieldStack.length := by
        cases h₂ : st.fieldStack with
        | nil => rw [h₂] at hptr; simp [ptrO] at hptr
        | cons a l => simp
      simp only [hptr]
      rcases hc : lookupKey (stripNamespacesFromPath n) fp.children with _ | field
      · simp [pushNulls]
      · simp only [hc]
        by_cases hs : field.type = "structure"
        · simp [hs]
        · by_cases hr : field.type = "repeat"
          · rw [if_neg hs, if_pos hr]
            rcases hdp : ptrO st.dataStack with _ | dp
            · simp [pushNulls]
            · have hbz : ¬ getBranchState (some field :: st.fieldStack).reverse ctx.table = 0 := by
                rw [htab]
                apply getBranchState_ne_zero
                simp only [List.length_reverse, List.length_cons]
                omega
              simp only [hdp]
              rw [if_neg hbz]
              split <;> rfl
          · simp [hs, hr]

theorem onclosetag_frame (st : St) :
    (onclosetag st).result = st.result ∧ (onclosetag st).rows = st.rows ∧
    (onclosetag st).droppedWrapper = st.droppedWrapper := by
  simp [onclosetag]

theorem onopentag_wrapper (ctx : Ctx) (st : St) (n : String) (hd : st.droppedWrapper = false) :
    onopentag ctx st n = { st with droppedWrapper := true } := by
  unfold onopentag
  simp [hd]

theorem sync_stepEv (ctx : Ctx) (st : St) (ev : Ev) (h : Sync st) : Sync (stepEv ctx st ev) := by
  obtain ⟨h₁, h₂, h₃⟩ := h
  cases ev with
  | openTag n =>
    show Sync (onopentag ctx st n)
    by_cases hd : st.droppedWrapper = false
    · rw [onopentag_wrapper ctx st n hd]
      exact ⟨h₁, h₂, h₃⟩
    · have hd₂ : st.droppedWrapper = true := by
        cases hb : st.droppedWrapper
        · exact absurd hb hd
        · rfl
      obtain ⟨l₁, l₂, l₃, l₄⟩ := onopentag_lengths ctx st n hd₂
      exact ⟨by omega, by omega, by omega⟩
  | text t =>
    show Sync (ontext ctx st t)
    obtain ⟨e₁, e₂, e₃, e₄, _, _⟩ := ontext_frame ctx st t
    exact ⟨by rw [e₁, e₂]; exact h₁, by rw [e₁, e₃]; exact h₂, by rw [e₁, e₄]; exact h₃⟩
  | closeTag =>
    show Sync (onclosetag st)
    refine ⟨?_, ?_, ?_⟩ <;> simp [onclosetag] <;> omega

theorem sync_initState (fields : List (String × SchemaField)) (iid table : String) :
    Sync (initState fields iid table) := by
  refine ⟨?_, ?_, ?_⟩ <;> simp [initState]

theorem sync_stateAfter (ctx : Ctx) (st : St) (evs : List Ev) (h : Sync st) :
    Sync (stateAfter ctx st evs) := by
  induction evs generalizing st with
  | nil => exact h
  | cons ev rest ih => exact ih _ (sync_stepEv ctx st ev h)

theorem runEvents_no_close (ctx : Ctx) :
    ∀ (evs : List Ev) (st : St), (∀ e ∈ evs, ¬ e = Ev.closeTag) →
      runEvents ctx st evs = none := by
  intro evs
  induction evs with
  | nil => intro st _; rfl
  | cons ev rest ih =>
    intro st h
    cases ev with
    | openTag n => exact ih _ (fun e he => h e (List.mem_cons_of_mem _ he))
    | text t => exact ih _ (fun e he => h e (List.mem_cons_of_mem _ he))
    | closeTag => exact absurd rfl (h Ev.closeTag (List.mem_cons_self _ _))

theorem runEvents_single_root (ctx : Ctx) (htab : ctx.table = "Submissions") :
    ∀ (evs : List Ev) (st : St), st.result = [0] →
      ∀ res, runEvents ctx st evs = some res → res.length = 1 := by
  intro evs
  induction evs with
  | nil => intro st _ res h; exact absurd h (by simp [runEvents])
  | cons ev rest ih =>
    intro st hres res h
    cases ev with
    | openTag n =>
      refine ih _ ?_ res h
      rw [show stepEv ctx st (Ev.openTag n) = onopentag ctx st n from rfl] at *
      rw [onopentag_result_sub ctx st n htab, hres]
    | text t =>
      refine ih _ ?_ res h
      rw [show stepEv ctx st (Ev.text t) = ontext ctx st t from rfl] at *
      rw [(ontext_frame ctx st t).2.2.2.2.1, hres]
    | closeTag =>
      rw [runEvents] at h
      split at h
      · have h₂ : res = (onclosetag st).result.map
            (fun i => (onclosetag st).rows.getD i []) := by
          injection h.symm
        rw [(onclosetag_frame st).1, hres] at h₂
        simp [h₂]
      · refine ih _ ?_ res h
        rw [(onclosetag_frame st).1, hres]

theorem getD_zero_headD {α : Type} (l : List (Option α)) : l.getD 0 none = l.headD none := by
  cases l <;> rfl

theorem getD_succ_tail {α : Type} (l : List (Option α)) (i : Nat) :
    l.getD (i + 1) none = l.tail.getD i none := by
  cases l <;> simp

theorem navLinkGo_eq :
    ∀ (fs : List (Option SchemaField)) (is : List (Option Iter))
      (acc : List (Option SchemaField × Option Iter)),
      navLinkGo acc fs is = (List.range fs.length).map (fun i =>
        if isBlank (is.getD i none) then fieldName (fs.getD i none)
        else fieldName (fs.getD i none) ++ "(" ++ sqc ++
          (if acc.length + i = 0 then iterRepr (is.getD i none)
           else hashId (acc ++ (zipPad fs is).take (i + 1))) ++ sqc ++ ")") := by
  intro fs
  induction fs with
  | nil => intro is acc; rfl
  | cons f fs ih =>
    intro is acc
    rw [navLinkGo]
    simp only [List.length_cons]
    rw [List.range_succ_eq_map]
    simp only [List.map_cons, List.map_map]
    congr 1
    · -- the first step of the remaining path
      rw [getD_zero_headD]
      have hgf : (f :: fs).getD 0 none = f := rfl
      rw [hgf]
      by_cases hb : isBlank (is.headD none) = true
      · rw [if_pos hb, if_pos hb]
      · rw [if_neg hb, if_neg hb]
        by_cases ha : acc.length = 0
        · have h₁ : (acc ++ [(f, is.headD none)]).length = 1 := by
            simp only [List.length_append, List.length_cons, List.length_nil]
            omega
          have h₂ : acc.length + 0 = 0 := by omega
          rw [if_pos h₁, if_pos h₂]
        · have h₁ : ¬ (acc ++ [(f, is.headD none)]).length = 1 := by
            simp only [List.length_append, List.length_cons, List.length_nil]
            omega
          have h₂ : ¬ acc.length + 0 = 0 := by omega
          rw [if_neg h₁, if_neg h₂]
          have h₃ : (zipPad (f :: fs) is).take (0 + 1) = [(f, is.headD none)] := by
            simp [zipPad]
          rw [h₃]
    · -- the deeper steps
      rw [ih is.tail (acc ++ [(f, is.headD none)])]
      apply List.map_congr_left
      intro i _
      simp only [Function.comp]
      rw [getD_succ_tail is i]
      have hgf : (f :: fs).getD (i + 1) none = fs.getD i none := by
        simp [List.getD]
      rw [hgf]
      by_cases hb : isBlank (is.tail.getD i none) = true
      · rw [if_pos hb, if_pos hb]
      · rw [if_neg hb, if_neg hb]
        have h₁ : ¬ (acc ++ [(f, is.headD none)]).length + i = 0 := by
          simp only [List.length_append, List.length_cons, List.length_nil]
          omega
        have h₂ : ¬ acc.length + (i + 1) = 0 := by omega
        rw [if_neg h₁, if_neg h₂]
        have h₃ : (zipPad (f :: fs) is).take (i + 1 + 1) =
            (f, is.headD none) :: (zipPad fs is.tail).take (i + 1) := by
          simp [zipPad]
        rw [h₃]
        have h₄ : acc ++ [(f, is.headD none)] ++ (zipPad fs is.tail).take (i + 1) =
            acc ++ (f, is.headD none) :: (zipPad fs is.tail).take (i + 1) := by
          simp
        rw [h₄]

/-! ## Claim theorems -/

/-- C1, counterexample: the current path `Submissions.ab` merely shares a
string prefix with the target table `Submissions.a` without a separator
boundary, so the claim requires `Outside` (-1); the branch locator instead
returns `Inside` (1). -/
theorem claim_C1_counterexample :
    getBranchState [some (SchemaField.mk "Submissions" "" []),
        some (SchemaField.mk "ab" "string" [])] "Submissions.a" = 1 ∧
    ¬ joinSep "." (([some (SchemaField.mk "Submissions" "" []),
        some (SchemaField.mk "ab" "string" [])]).map fieldName) = "Submissions.a" ∧
    sepExtension (joinSep "." (([some (SchemaField.mk "Submissions" "" []),
        some (SchemaField.mk "ab" "string" [])]).map fieldName)) "Submissions.a" = false := by
  refine ⟨by decide, by decide, by decide⟩

/-- C1, amended: the branch locator returns `At` (0) exactly when the
dot-joined path equals the target table, `Inside` (1) exactly when the path
is a proper string-prefix extension of the table — no separator boundary is
required, so a path merely sharing a string prefix is also classified
Inside — and `Outside` (-1) in every other case. -/
theorem claim_C1_branch_locator (fieldStack : List (Option SchemaField)) (table : String) :
    (getBranchState fieldStack table = 0 ↔
      joinSep "." (fieldStack.map fieldName) = table) ∧
    (getBranchState fieldStack table = 1 ↔
      ¬ joinSep "." (fieldStack.map fieldName) = table ∧
      strStartsWith (joinSep "." (fieldStack.map fieldName)) table = true) ∧
    (getBranchState fieldStack table = -1 ↔
      ¬ joinSep "." (fieldStack.map fieldName) = table ∧
      ¬ strStartsWith (joinSep "." (fieldStack.map fieldName)) table = true) := by
  unfold getBranchState
  by_cases h₁ : joinSep "." (fieldStack.map fieldName) = table
  · rw [if_pos h₁]
    refine ⟨by simp [h₁], by norm_num [h₁], by norm_num [h₁]⟩
  · rw [if_neg h₁]
    by_cases h₂ : strStartsWith (joinSep "." (fieldStack.map fieldName)) table = true
    · rw [if_pos h₂]
      refine ⟨by norm_num [h₁], by simp [h₁, h₂], by norm_num [h₂]⟩
    · rw [if_neg h₂]
      refine ⟨by norm_num [h₁], by norm_num [h₂], by simp [h₁, h₂]⟩

/-- C8, counterexample: an unbalanced document (two open events, no close)
is malformed XML, but the conversion does not surface any error to the
caller: its promise has a resolver and no rejecter, and with the depth
never returning to zero it simply never settles (`none`) — neither an
error nor a result is ever delivered. -/
theorem claim_C8_counterexample :
    submissionToOData [] "Submissions" ⟨"i", [.openTag "env", .openTag "x"]⟩ = none := by
  decide

/-- C8, amended: malformed XML is not a hard failure surfaced to the
caller: the conversion has no rejection path at all, and for any event
stream holding no close event (a document whose markup never closes) it
never delivers a result — the promise stays pending forever. -/
theorem claim_C8_no_error_surfaced (fields : List (String × SchemaField)) (table iid : String)
    (wkt : Bool) (evs : List Ev) (h : ∀ e ∈ evs, ¬ e = Ev.closeTag) :
    submissionToOData fields table ⟨iid, evs⟩ wkt = none :=
  runEvents_no_close _ evs _ h

/-- C8 witness: the amended theorem applied to a concrete unclosed
document. -/
theorem claim_C8_no_error_surfaced_witness :
    (∀ e ∈ [Ev.openTag "x"], ¬ e = Ev.closeTag) ∧
    submissionToOData [] "t" ⟨"i", [Ev.openTag "x"]⟩ = none :=
  ⟨by decide, claim_C8_no_error_surfaced [] "t" "i" false [Ev.openTag "x"] (by decide)⟩

/-- C2, counterexample: an int field receiving the unparseable text `abc`
does get its key written — the emitted row carries `age` with the JS `NaN`
value, rather than omitting the key as the claim states; the sibling text
field is still populated. -/
theorem claim_C2_counterexample :
    submissionToOData coercionFields "Submissions" ⟨"iid0", coercionEvs⟩ =
      some [[("__id", Value.str "iid0"), ("age", Value.nan), ("name", Value.str "bob")]] ∧
    parseIntJS "abc" = none ∧
    lookupKey "age" [("__id", Value.str "iid0"), ("age", Value.nan),
      ("name", Value.str "bob")] = some Value.nan := by
  refine ⟨by decide, by decide, by decide⟩

/-- C2, amended: when an Int-typed (or Decimal-typed) field receives text
that does not parse, the conversion still writes that field key, with the
JS NaN marker; every other key of the same row is left untouched, so the
rest of the row stays populated. -/
theorem claim_C2_failed_coercion (ctx : Ctx) (st : St) (text : String) (f : SchemaField)
    (dp : Nat) (hf : ptrO st.fieldStack = some f)
    (hb : getBranchState st.fieldStack.reverse ctx.table = 1)
    (hdp : ptrO st.dataStack = some dp) (hlen : dp < st.rows.length) :
    (f.type = "int" → parseIntJS text = none →
      lookupKey (nsTarget (ptrO st.nsStack) f.name) ((ontext ctx st text).rows.getD dp []) =
        some Value.nan ∧
      ∀ k, ¬ k = nsTarget (ptrO st.nsStack) f.name →
        lookupKey k ((ontext ctx st text).rows.getD dp []) = lookupKey k (st.rows.getD dp [])) ∧
    (f.type = "decimal" → parseFloatJS text = none →
      lookupKey (nsTarget (ptrO st.nsStack) f.name) ((ontext ctx st text).rows.getD dp []) =
        some Value.nan ∧
      ∀ k, ¬ k = nsTarget (ptrO st.nsStack) f.name →
        lookupKey k ((ontext ctx st text).rows.getD dp []) = lookupKey k (st.rows.getD dp [])) := by
  constructor
  · intro ht hp
    have hrows : (ontext ctx st text).rows =
        heapSet st.rows dp (nsTarget (ptrO st.nsStack) f.name) Value.nan := by
      rw [ontext_int_eq ctx st text f dp hf ht hb hdp]
      simp [hp, numOrNaN]
    rw [hrows, heapSet_getD_self _ _ _ _ hlen]
    exact ⟨lookupKey_setKey_self _ _ _, fun k hk => lookupKey_setKey_other _ _ _ _ hk⟩
  · intro ht hp
    have hrows : (ontext ctx st text).rows =
        heapSet st.rows dp (nsTarget (ptrO st.nsStack) f.name) Value.nan := by
      rw [ontext_decimal_eq ctx st text f dp hf ht hb hdp]
      simp [hp, numOrNaN]
    rw [hrows, heapSet_getD_self _ _ _ _ hlen]
    exact ⟨lookupKey_setKey_self _ _ _, fun k hk => lookupKey_setKey_other _ _ _ _ hk⟩

/-- C2 witness: the amended theorem applied to a concrete int field with
text `abc`. -/
theorem claim_C2_failed_coercion_witness :
    ptrO (wSt "int").fieldStack = some (SchemaField.mk "g" "int" []) ∧
    getBranchState (wSt "int").fieldStack.reverse (wCtx false).table = 1 ∧
    parseIntJS "abc" = none ∧
    lookupKey "g" ((ontext (wCtx false) (wSt "int") "abc").rows.getD 0 []) = some Value.nan ∧
    lookupKey "other" ((ontext (wCtx false) (wSt "int") "abc").rows.getD 0 []) =
      lookupKey "other" ((wSt "int").rows.getD 0 []) := by
  have h := claim_C2_failed_coercion (wCtx false) (wSt "int") "abc"
    (SchemaField.mk "g" "int" []) 0 rfl (by decide) (by decide) (by decide)
  obtain ⟨h₁, h₂⟩ := h.1 rfl (by decide)
  exact ⟨rfl, by decide, by decide, h₁, h₂ "other" (by decide)⟩

/-- C9, counterexample: a geopoint field receiving the texts `1 2` and then
`x` keeps the value written by the first event, because the failing last
coercion writes nothing — while the claim predicts the row reflects the
coercion of the last event, which alone leaves the key absent. -/
theorem claim_C9_counterexample :
    submissionToOData geoFields "Submissions" ⟨"i", geoEvs ["1 2", "x"]⟩ =
      some [[("__id", Value.str "i"), ("g", Value.point [⟨2, 0⟩, ⟨1, 0⟩])]] ∧
    submissionToOData geoFields "Submissions" ⟨"i", geoEvs ["x"]⟩ =
      some [[("__id", Value.str "i")]] ∧
    lookupKey "g" [("__id", Value.str "i")] = none := by
  refine ⟨by decide, by decide, by decide⟩

/-- C9, amended: within one conversion each text event that produces a
coerced value overwrites the field key in place — int and decimal always
write (NaN on failure), the default type writes the raw text, a geopoint
writes exactly when its text parses and otherwise leaves the row unchanged
— so the emitted value equals the last successful write, not necessarily
the last event. -/
theorem claim_C9_last_write (ctx : Ctx) (st : St) (text : String) (f : SchemaField)
    (dp : Nat) (hf : ptrO st.fieldStack = some f)
    (hb : getBranchState st.fieldStack.reverse ctx.table = 1)
    (hdp : ptrO st.dataStack = some dp) (hlen : dp < st.rows.length) :
    (f.type = "int" →
      lookupKey (nsTarget (ptrO st.nsStack) f.name) ((ontext ctx st text).rows.getD dp []) =
        some (numOrNaN ((parseIntJS text).map (fun n => ⟨n, 0⟩)))) ∧
    (f.type = "decimal" →
      lookupKey (nsTarget (ptrO st.nsStack) f.name) ((ontext ctx st text).rows.getD dp []) =
        some (numOrNaN (parseFloatJS text))) ∧
    (¬ f.type = "structure" → ¬ f.type = "repeat" → ¬ f.type = "int" →
      ¬ f.type = "decimal" → ¬ f.type = "geopoint" →
      lookupKey (nsTarget (ptrO st.nsStack) f.name) ((ontext ctx st text).rows.getD dp []) =
        some (Value.str text)) ∧
    (f.type = "geopoint" →
      (∀ v, geoValue ctx.wkt text = some v →
        lookupKey (nsTarget (ptrO st.nsStack) f.name) ((ontext ctx st text).rows.getD dp []) =
          some v) ∧
      (geoValue ctx.wkt text = none → ontext ctx st text = st)) := by
  refine ⟨?_, ?_, ?_, ?_⟩
  · intro ht
    rw [ontext_int_eq ctx st text f dp hf ht hb hdp]
    simp only []
    rw [heapSet_getD_self _ _ _ _ hlen]
    exact lookupKey_setKey_self _ _ _
  · intro ht
    rw [ontext_decimal_eq ctx st text f dp hf ht hb hdp]
    simp only []
    rw [heapSet_getD_self _ _ _ _ hlen]
    exact lookupKey_setKey_self _ _ _
  · intro ht₁ ht₂ ht₃ ht₄ ht₅
    rw [ontext_default_eq ctx st text f dp hf ht₁ ht₂ ht₃ ht₄ ht₅ hb hdp]
    simp only []
    rw [heapSet_getD_self _ _ _ _ hlen]
    exact lookupKey_setKey_self _ _ _
  · intro ht
    constructor
    · intro v hv
      rw [ontext_geo_some_eq ctx st text f dp v hf ht hb hdp hv]
      simp only []
      rw [heapSet_getD_self _ _ _ _ hlen]
      exact lookupKey_setKey_self _ _ _
    · intro hv
      exact ontext_geo_none_eq ctx st text f hf ht hv

/-- C9 witness: the amended theorem applied to a concrete geopoint field:
the event `1 2` writes the point, and the event `x` leaves the state
unchanged. -/
theorem claim_C9_last_write_witness :
    geoValue false "1 2" = some (Value.point [⟨2, 0⟩, ⟨1, 0⟩]) ∧
    lookupKey "g" ((ontext (wCtx false) (wSt "geopoint") "1 2").rows.getD 0 []) =
      some (Value.point [⟨2, 0⟩, ⟨1, 0⟩]) ∧
    geoValue false "x" = none ∧
    ontext (wCtx false) (wSt "geopoint") "x" = wSt "geopoint" := by
  have h := claim_C9_last_write (wCtx false) (wSt "geopoint") "1 2"
    (SchemaField.mk "g" "geopoint" []) 0 rfl (by decide) (by decide) (by decide)
  have h₂ := claim_C9_last_write (wCtx false) (wSt "geopoint") "x"
    (SchemaField.mk "g" "geopoint" []) 0 rfl (by decide) (by decide) (by decide)
  refine ⟨by decide, ?_, by decide, ?_⟩
  · exact (h.2.2.2 rfl).1 (Value.point [⟨2, 0⟩, ⟨1, 0⟩]) (by decide)
  · exact (h₂.2.2.2 rfl).2 (by decide)

/-- C5: a geopoint field receiving text while Inside: the text is split on
whitespace into latitude, longitude and optional altitude; when latitude or
longitude is missing or unparseable nothing is written (the state is
unchanged, so the key stays absent); otherwise the coordinates are ordered
`[longitude, latitude]` with the altitude appended only when valid, written
as the `POINT (lon lat[ alt])` string when the wkt option is true and as
the structured point object otherwise — with the structured form being the
default (`wkt := false`); the spec test cases evaluate accordingly. -/
theorem claim_C5_geopoint (ctx : Ctx) (st : St) (text : String) (f : SchemaField)
    (dp : Nat) (hf : ptrO st.fieldStack = some f) (ht : f.type = "geopoint")
    (hb : getBranchState st.fieldStack.reverse ctx.table = 1)
    (hdp : ptrO st.dataStack = some dp) (hlen : dp < st.rows.length) :
    (∀ v, geoValue ctx.wkt text = some v →
      lookupKey (nsTarget (ptrO st.nsStack) f.name) ((ontext ctx st text).rows.getD dp []) =
        some v) ∧
    (geoValue ctx.wkt text = none → ontext ctx st text = st) ∧
    (∀ lat lon, ((jsSplitWs text).map parseFloatJS).head? = some (some lat) →
      ((jsSplitWs text).map parseFloatJS).tail.head? = some (some lon) →
      geoValue ctx.wkt text = some (if ctx.wkt then
          Value.str ("POINT (" ++ joinSep " " ((([lon, lat] ++ geoAlt text)).map decRepr) ++ ")")
        else Value.point ([lon, lat] ++ geoAlt text))) ∧
    (((jsSplitWs text).map parseFloatJS).head? = some none ∨
      ((jsSplitWs text).map parseFloatJS).tail.head? = some none ∨
      ((jsSplitWs text).map parseFloatJS).tail.head? = none →
      geoValue ctx.wkt text = none) ∧
    (submissionToOData geoFields "Submissions" ⟨"i", geoEvs ["1.0 2.0"]⟩ =
      some [[("__id", Value.str "i"), ("g", Value.point [⟨2, 0⟩, ⟨1, 0⟩])]] ∧
    submissionToOData geoFields "Submissions" ⟨"i", geoEvs ["1.0 2.0"]⟩ true =
      some [[("__id", Value.str "i"), ("g", Value.str "POINT (2 1)")]] ∧
    submissionToOData geoFields "Submissions" ⟨"i", geoEvs ["1.0"]⟩ =
      some [[("__id", Value.str "i")]]) := by
  refine ⟨?_, ?_, ?_, ?_, by decide, by decide, by decide⟩
  · intro v hv
    rw [ontext_geo_some_eq ctx st text f dp v hf ht hb hdp hv]
    simp only []
    rw [heapSet_getD_self _ _ _ _ hlen]
    exact lookupKey_setKey_self _ _ _
  · intro hv
    exact ontext_geo_none_eq ctx st text f hf ht hv
  · intro lat lon h₁ h₂
    unfold geoValue
    simp only [h₁, h₂]
  · intro h
    rcases h with h₁ | h₁ | h₁
    · unfold geoValue
      rcases h₂ : ((jsSplitWs text).map parseFloatJS).tail.head? with _ | lonO
      · simp [h₁, h₂]
      · simp [h₁, h₂]
    · rcases h₂ : ((jsSplitWs text).map parseFloatJS).head? with _ | latO
      · unfold geoValue
        simp [h₁, h₂]
      · unfold geoValue
        simp [h₁, h₂]
    · unfold geoValue
      simp [h₁]

/-- C5 witness: the theorem applied to a concrete geopoint field and text
`1.0 2.0`. -/
theorem claim_C5_geopoint_witness :
    geoValue false "1.0 2.0" = some (Value.point [⟨2, 0⟩, ⟨1, 0⟩]) ∧
    lookupKey "g" ((ontext (wCtx false) (wSt "geopoint") "1.0 2.0").rows.getD 0 []) =
      some (Value.point [⟨2, 0⟩, ⟨1, 0⟩]) := by
  have h := claim_C5_geopoint (wCtx false) (wSt "geopoint") "1.0 2.0"
    (SchemaField.mk "g" "geopoint" []) 0 rfl rfl (by decide) (by decide) (by decide)
  exact ⟨by decide, h.1 (Value.point [⟨2, 0⟩, ⟨1, 0⟩]) (by decide)⟩

/-- C4: a row id is a function of the ancestry only — the digest depends
only on the field names and interpolated iteration values; changing one
numeric iteration position while keeping everything else changes the id;
text events touch neither the field stack, the iteration stack nor the
result, so unrelated sibling content cannot alter identity state; the
conversion is a pure function of its inputs (byte-identical input gives
identical output); and concretely, two conversions differing only in a
sibling text value produce result rows with identical ids. -/
theorem claim_C4_identity :
    (∀ s₁ s₂ : List (Option SchemaField × Option Iter),
      s₁.map (fun p => fieldName p.1) = s₂.map (fun p => fieldName p.1) →
      s₁.map (fun p => iterRepr p.2) = s₂.map (fun p => iterRepr p.2) →
      hashId s₁ = hashId s₂) ∧
    (∀ (P Q : List (Option SchemaField × Option Iter)) (f : Option SchemaField) (i j : Nat),
      ¬ i = j →
      ¬ hashId (P ++ (f, some (.nat i)) :: Q) = hashId (P ++ (f, some (.nat j)) :: Q)) ∧
    (∀ (ctx : Ctx) (st : St) (t : String), (ontext ctx st t).fieldStack = st.fieldStack ∧
      (ontext ctx st t).iterationStack = st.iterationStack ∧
      (ontext ctx st t).result = st.result) ∧
    (∀ fields table sub wkt,
      submissionToOData fields table sub wkt = submissionToOData fields table sub wkt) ∧
    (((submissionToOData siblingFields "Submissions.a" ⟨"w", siblingEvs "x"⟩).getD []).map
        (lookupKey "__id") =
      ((submissionToOData siblingFields "Submissions.a" ⟨"w", siblingEvs "y"⟩).getD []).map
        (lookupKey "__id") ∧
      ¬ siblingEvs "x" = siblingEvs "y") := by
  refine ⟨hashId_congr, hashId_ne_of_iter_ne, ?_, fun _ _ _ _ => rfl, by decide, by decide⟩
  intro ctx st t
  obtain ⟨h₁, _, h₂, _, h₃, _⟩ := ontext_frame ctx st t
  exact ⟨h₁, h₂, h₃⟩

/-- C4 witness: the sensitivity part applied at two concrete iteration
positions. -/
theorem claim_C4_identity_witness :
    ¬ (0 : Nat) = 1 ∧
    ¬ hashId [(none, some (Iter.nat 0))] = hashId [(none, some (Iter.nat 1))] :=
  ⟨by decide, claim_C4_identity.2.1 [] [] none 0 1 (by decide)⟩

/-- C6, counterexample: in an ancestry whose first step has no live
iteration (a structure) while the second step has one, the claim makes the
second step — the first step with a live iteration — contribute the literal
value `5`; the builder instead keys it with the content-hash of the
truncated ancestry, and only position 0 ever receives the literal value. -/
theorem claim_C6_counterexample :
    navigationLink [some (SchemaField.mk "g" "structure" []),
        some (SchemaField.mk "a" "repeat" [])] [some (.str ""), some (.str "5")] =
      "g/a(" ++ sqc ++ hashId [(some (SchemaField.mk "g" "structure" []), some (.str "")),
        (some (SchemaField.mk "a" "repeat" []), some (.str "5"))] ++ sqc ++ ")" ∧
    isBlank (some (.str "")) = true ∧
    isBlank (some (.str "5")) = false ∧
    ¬ navigationLink [some (SchemaField.mk "g" "structure" []),
        some (SchemaField.mk "a" "repeat" [])] [some (.str ""), some (.str "5")] =
      "g/a(" ++ sqc ++ "5" ++ sqc ++ ")" := by
  refine ⟨by decide, by decide, by decide, by decide⟩

/-- C6, amended: the navigation link is the `/`-join over the ancestry of
per-step strings where a step with no live iteration contributes its bare
field name, the step at index 0 (the document root) contributes
`name(<literal iteration value>)` when live, and every deeper live step
contributes `name(<content-hash id of the ancestry truncated to it>)`. -/
theorem claim_C6_navigation_link (fs : List (Option SchemaField)) (is : List (Option Iter)) :
    navigationLink fs is = joinSep "/" ((List.range fs.length).map (navStep fs is)) := by
  unfold navigationLink
  rw [navLinkGo_eq fs is []]
  congr 1
  apply List.map_congr_left
  intro i _
  unfold navStep
  simp only [List.length_nil, List.nil_append, Nat.zero_add]

/-- C7: the four traversal stacks stay synchronized — the initial state has
equal stack lengths, every event step preserves that equality (so the state
after any event prefix of a conversion satisfies it), every open event
after the dropped wrapper pushes exactly one entry onto each of the four
stacks, and every close pops exactly one from each. -/
theorem claim_C7_stack_sync :
    (∀ fields iid table, Sync (initState fields iid table)) ∧
    (∀ (ctx : Ctx) (st : St) (ev : Ev), Sync st → Sync (stepEv ctx st ev)) ∧
    (∀ (ctx : Ctx) fields iid table evs, Sync (stateAfter ctx (initState fields iid table) evs)) ∧
    (∀ (ctx : Ctx) (st : St) (n : String), st.droppedWrapper = true →
      (onopentag ctx st n).fieldStack.length = st.fieldStack.length + 1 ∧
      (onopentag ctx st n).dataStack.length = st.dataStack.length + 1 ∧
      (onopentag ctx st n).iterationStack.length = st.iterationStack.length + 1 ∧
      (onopentag ctx st n).nsStack.length = st.nsStack.length + 1) ∧
    (∀ st : St, (onclosetag st).fieldStack.length = st.fieldStack.length - 1 ∧
      (onclosetag st).dataStack.length = st.dataStack.length - 1 ∧
      (onclosetag st).iterationStack.length = st.iterationStack.length - 1 ∧
      (onclosetag st).nsStack.length = st.nsStack.length - 1) := by
  refine ⟨sync_initState, sync_stepEv, ?_, onopentag_lengths, ?_⟩
  · intro ctx fields iid table evs
    exact sync_stateAfter ctx _ evs (sync_initState fields iid table)
  · intro st
    refine ⟨?_, ?_, ?_, ?_⟩ <;> simp [onclosetag]

/-- C7 witness: the step-preservation and the open-push parts applied to
concrete states. -/
theorem claim_C7_stack_sync_witness :
    Sync (wSt "int") ∧
    Sync (stepEv (wCtx false) (wSt "int") (Ev.text "q")) ∧
    (wStA.droppedWrapper = true ∧
      (onopentag (wCtx false) wStA "a").fieldStack.length = wStA.fieldStack.length + 1) :=
  ⟨by decide, claim_C7_stack_sync.2.1 (wCtx false) (wSt "int") (Ev.text "q") (by decide),
    rfl, (claim_C7_stack_sync.2.2.2.1 (wCtx false) wStA "a" rfl).1⟩

/-- C3: a repeat element classified At appends its new row to the result
and gives it exactly one parent-reference key next to `__id`: the ancestry
minus the current entry is walked backward to the nearest ancestor repeat;
if the walk empties (no ancestor repeat) the key is `__Submissions-id`
valued with the submission instanceId, otherwise the key joins the names of
the ancestry up to that repeat as `__<names>-id` and the value is the
content-hash id of that truncated ancestry — the ancestor row's own id.
Concretely, in the nested case (two `a` instances with one `b` each, table
`Submissions.a.b`) the two rows carry the hashes of their distinct
enclosing `a` instances. -/
theorem claim_C3_parent_reference :
    (∀ (ctx : Ctx) (st : St) (fullname : String) (fp field : SchemaField) (dp : Nat),
      st.droppedWrapper = true → ptrO st.fieldStack = some fp →
      lookupKey (stripNamespacesFromPath fullname) fp.children = some field →
      field.type = "repeat" → ptrO st.dataStack = some dp →
      getBranchState (some field :: st.fieldStack).reverse ctx.table = 0 →
      (let name := stripNamespacesFromPath fullname
      let rows₁ := heapSet st.rows dp (nsTarget (ptrO st.nsStack) name ++ "@odata.navigationLink")
        (.str (navigationLink (some field :: st.fieldStack).reverse st.iterationStack.reverse))
      let arr := match lookupKey name (rows₁.getD dp []) with
        | some (.arr l) => l
        | some _ => []
        | none => []
      let ctxStack := List.zip (some field :: st.fieldStack)
        (some (.nat arr.length) :: st.iterationStack)
      let bagId := rows₁.length
      let rest := (ctxStack.drop 1).dropWhile (fun p => ¬ fieldType p.1 = "repeat")
      (onopentag ctx st fullname).result = st.result ++ [bagId] ∧
      (onopentag ctx st fullname).rows.getD bagId [] =
        (if rest.isEmpty then
          [("__id", Value.str (hashId ctxStack.reverse)),
           ("__Submissions-id", Value.str ctx.iid)]
        else
          [("__id", Value.str (hashId ctxStack.reverse)),
           ("__" ++ joinSep "-" (rest.reverse.map (fun p => fieldName p.1)) ++ "-id",
            Value.str (hashId rest.reverse))]))) ∧
    (submissionToOData nestedFields "Submissions.a.b" ⟨"w", nestedEvs⟩ =
      some [[("__id", Value.str (shasum "Submissions#w%%a#0%%b#0")),
             ("__Submissions-a-id", Value.str (shasum "Submissions#w%%a#0"))],
            [("__id", Value.str (shasum "Submissions#w%%a#1%%b#0")),
             ("__Submissions-a-id", Value.str (shasum "Submissions#w%%a#1"))]] ∧
      ¬ shasum "Submissions#w%%a#0" = shasum "Submissions#w%%a#1") := by
  refine ⟨?_, by decide, by decide⟩
  intro ctx st fullname fp field dp hd hf hc ht hdp hbs
  exact onopentag_at_parent_ref ctx st fullname fp field dp hd hf hc ht hdp hbs

/-- C3 witness: the general part applied to a concrete state where the
repeat `a` is opened At the requested table with no ancestor repeat. -/
theorem claim_C3_parent_reference_witness :
    (onopentag (⟨"Submissions.a", "w", false⟩ : Ctx) wStA "a").result = [] ++ [1] ∧
    (onopentag (⟨"Submissions.a", "w", false⟩ : Ctx) wStA "a").rows.getD 1 [] =
      [("__id", Value.str (shasum "Submissions#w%%a#0")),
       ("__Submissions-id", Value.str "w")] := by
  have h := claim_C3_parent_reference.1 ⟨"Submissions.a", "w", false⟩ wStA "a"
    (SchemaField.mk "Submissions" "" [("a", SchemaField.mk "a" "repeat" [])])
    (SchemaField.mk "a" "repeat" []) 0 rfl rfl rfl rfl rfl (by decide)
  exact ⟨h.1, h.2⟩

/-- C10, counterexample: with the requested table `Submissions` and
instanceId `orig`, a schema text field literally named `__id` overwrites
the seeded root id, so the single result row's `__id` is `boo`, not the
submission instanceId as the claim states. -/
theorem claim_C10_counterexample :
    submissionToOData idOverwriteFields "Submissions" ⟨"orig", idOverwriteEvs⟩ =
      some [[("__id", Value.str "boo")]] ∧
    ¬ (Value.str "boo") = (Value.str "orig") := by
  refine ⟨by decide, by decide⟩

/-- C10, amended: the root table name is the fixed literal `Submissions`
regardless of the supplied schema or table identifier — the bottom of the
field stack is named `Submissions`, the root row is seeded with `__id` set
to the submission instanceId, the root row is put into the result exactly
when the target table string equals `Submissions`, and in that case any
delivered result holds exactly one row (no further row is ever appended;
the seeded `__id` key itself can however later be overwritten by a schema
field literally named `__id`); every At-classified row whose backward walk
finds no ancestor repeat gets the parent key `__Submissions-id` valued with
the instanceId.  A caller cannot select a different root table name. -/
theorem claim_C10_root_table :
    (∀ fields iid table, (initState fields iid table).fieldStack =
      [some (SchemaField.mk "Submissions" "" fields)]) ∧
    (∀ fields iid table, (initState fields iid table).rows = [[("__id", Value.str iid)]]) ∧
    (∀ fields iid table, (initState fields iid table).result =
      (if table = "Submissions" then [0] else [])) ∧
    (∀ fields iid wkt evs res,
      submissionToOData fields "Submissions" ⟨iid, evs⟩ wkt = some res → res.length = 1) ∧
    (∀ (ctx : Ctx) (st : St) (fullname : String) (fp field : SchemaField) (dp : Nat),
      st.droppedWrapper = true → ptrO st.fieldStack = some fp →
      lookupKey (stripNamespacesFromPath fullname) fp.children = some field →
      field.type = "repeat" → ptrO st.dataStack = some dp →
      getBranchState (some field :: st.fieldStack).reverse ctx.table = 0 →
      (let name := stripNamespacesFromPath fullname
      let rows₁ := heapSet st.rows dp (nsTarget (ptrO st.nsStack) name ++ "@odata.navigationLink")
        (.str (navigationLink (some field :: st.fieldStack).reverse st.iterationStack.reverse))
      let arr := match lookupKey name (rows₁.getD dp []) with
        | some (.arr l) => l
        | some _ => []
        | none => []
      let ctxStack := List.zip (some field :: st.fieldStack)
        (some (.nat arr.length) :: st.iterationStack)
      let bagId := rows₁.length
      let rest := (ctxStack.drop 1).dropWhile (fun p => ¬ fieldType p.1 = "repeat")
      rest = [] →
      lookupKey "__Submissions-id" ((onopentag ctx st fullname).rows.getD bagId []) =
        some (Value.str ctx.iid))) := by
  refine ⟨fun _ _ _ => rfl, fun _ _ _ => rfl, fun _ _ _ => rfl, ?_, ?_⟩
  · intro fields iid wkt evs res h
    unfold submissionToOData at h
    refine runEvents_single_root ⟨"Submissions", iid, wkt⟩ rfl evs _ ?_ res h
    simp [initState]
  · intro ctx st fullname fp field dp hd hf hc ht hdp hbs
    simp only []
    intro hrest
    have h := (onopentag_at_parent_ref ctx st fullname fp field dp hd hf hc ht hdp hbs).2
    simp only [] at h
    rw [hrest] at h
    simp only [List.isEmpty_nil, if_true] at h
    rw [h]
    simp [lookupKey]

/-- C10 witness: the one-row guarantee applied to a concrete conversion,
and the parent-key part applied to a concrete At state. -/
theorem claim_C10_root_table_witness :
    (submissionToOData idOverwriteFields "Submissions" ⟨"orig", idOverwriteEvs⟩ =
      some [[("__id", Value.str "boo")]] ∧
      ([[("__id", Value.str "boo")]] : List Row).length = 1) ∧
    lookupKey "__Submissions-id"
      ((onopentag (⟨"Submissions.a", "w", false⟩ : Ctx) wStA "a").rows.getD 1 []) =
      some (Value.str "w") := by
  refine ⟨⟨by decide, ?_⟩, ?_⟩
  · exact claim_C10_root_table.2.2.2.1 idOverwriteFields "orig" false idOverwriteEvs
      [[("__id", Value.str "boo")]] (by decide)
  · exact claim_C10_root_table.2.2.2.2 ⟨"Submissions.a", "w", false⟩ wStA "a"
      (SchemaField.mk "Submissions" "" [("a", SchemaField.mk "a" "repeat" [])])
      (SchemaField.mk "a" "repeat" []) 0 rfl rfl rfl rfl rfl (by decide) rfl
